import Mathlib

/-!
Verification of `visualization.py` (DataBase_Visualization): a shallow
embedding of the schema-extraction function
`get_postgres_schema_with_relations` and of the two renderers
`generate_erd_graphviz` / `generate_erd_networkx`, together with proofs of
the specification's claims about them.

The database catalog (`information_schema` views plus `pg_indexes`) is
modelled as explicit relations; each SQL catalog query of the source is
translated as a Lean function over that catalog (filters, nested-loop
joins, insertion sort for `ORDER BY`).  Query or connection failures are
injected through a `DbEnv` failure oracle, and the connection lifecycle is
tracked by an explicit `ConnTrace` (number of `connect` and `close` calls)
so that claims about resource handling can be stated.
-/

namespace DBViz

/-- Python dict insertion faithful to `d[k] = v`: replace in place if the
key exists, otherwise append preserving insertion order. -/
def dinsert {κ : Type} {α : Type} [DecidableEq κ] (k : κ) (v : α) :
    List (κ × α) → List (κ × α)
  | [] => [(k, v)]
  | (k', v') :: rest =>
      if k' = k then (k, v) :: rest else (k', v') :: dinsert k v rest

/-- Python dict lookup `d[k]` / `d.get(k)`. -/
def dlookup {κ : Type} {α : Type} [DecidableEq κ] (k : κ) :
    List (κ × α) → Option α
  | [] => none
  | (k', v') :: rest => if k' = k then some v' else dlookup k rest

/-- Python `k in d`. -/
def dmem {κ : Type} {α : Type} [DecidableEq κ] (k : κ) (d : List (κ × α)) : Bool :=
  (dlookup k d).isSome

/-! ### The schema model built by `get_postgres_schema_with_relations` -/

/-- One entry of `schema_info['columns'][table]`:
`{'name': col[0], 'type': col[1], 'nullable': col[2], 'position': col[3]}`.
`nullable` keeps the raw catalog string (`'YES'`/`'NO'`), as the code does. -/
structure ColumnInfo where
  name : String
  type : String
  nullable : String
  position : Nat
deriving DecidableEq, Repr

/-- One entry of `schema_info['foreign_keys']`. -/
structure FKEdge where
  from_table : String
  from_column : String
  to_table : String
  to_column : String
deriving DecidableEq, Repr

/-- One entry of `schema_info['indexes'][table]`. -/
structure IndexInfo where
  name : String
  definition : String
deriving DecidableEq, Repr

/-- The `schema_info` dictionary returned by the extraction function. -/
structure SchemaModel where
  tables : List String
  columns : List (String × List ColumnInfo)
  primary_keys : List (String × List String)
  foreign_keys : List FKEdge
  indexes : List (String × List IndexInfo)
deriving DecidableEq, Repr

/-- `schema_info` as initialised at lines 34-40 of the source. -/
def emptySchema : SchemaModel := ⟨[], [], [], [], []⟩

/-! ### The database catalog, as relations -/

/-- A row of `information_schema.tables`. -/
structure CatTable where
  schema : String
  name : String
  tableType : String
deriving DecidableEq, Repr

/-- A row of `information_schema.columns`. -/
structure CatColumn where
  schema : String
  table : String
  name : String
  dataType : String
  isNullable : String
  position : Nat
deriving DecidableEq, Repr

/-- A row of `information_schema.table_constraints`. -/
structure TableConstraint where
  constraintName : String
  constraintType : String
  schema : String
  table : String
deriving DecidableEq, Repr

/-- A row of `information_schema.key_column_usage`. -/
structure KeyColumnUsage where
  constraintName : String
  schema : String
  table : String
  column : String
deriving DecidableEq, Repr

/-- A row of `information_schema.constraint_column_usage`.  Its
`schema`/`table` columns describe the table the constraint references. -/
structure ConstraintColumnUsage where
  constraintName : String
  schema : String
  table : String
  column : String
deriving DecidableEq, Repr

/-- A row of `pg_indexes`. -/
structure PgIndex where
  schemaname : String
  tablename : String
  indexname : String
  indexdef : String
deriving DecidableEq, Repr

/-- The catalog state of the connected database. -/
structure Catalog where
  tables : List CatTable
  columns : List CatColumn
  tableConstraints : List TableConstraint
  keyColumnUsage : List KeyColumnUsage
  constraintColumnUsage : List ConstraintColumnUsage
  indexes : List PgIndex
deriving Repr

/-! ### The five catalog queries -/

/-- Codepoint-lexicographic `≤` on character lists, modelling the text
collation used by `ORDER BY` over catalog identifiers. -/
def charsLe : List Char → List Char → Bool
  | [], _ => true
  | _ :: _, [] => false
  | a :: as, b :: bs =>
      if a.toNat < b.toNat then true
      else if b.toNat < a.toNat then false
      else charsLe as bs

/-- `≤` on strings under the modelled collation. -/
def strLe (a b : String) : Bool := charsLe a.data b.data

/-- `<` on strings under the modelled collation. -/
def strLt (a b : String) : Bool := strLe a b && !(a == b)

/-- Lexicographic `ORDER BY table_schema, table_name`. -/
def tabLE (a b : CatTable) : Prop :=
  strLt a.schema b.schema = true ∨ (a.schema = b.schema ∧ strLe a.name b.name = true)

instance : DecidableRel tabLE := fun _ _ =>
  inferInstanceAs (Decidable (_ ∨ (_ ∧ _)))

/-- The table-listing query (source lines 25-31): base tables outside the
system schemas, ordered by schema then name. -/
def listTablesQuery (cat : Catalog) : List (String × String) :=
  (List.insertionSort tabLE
    (cat.tables.filter (fun t =>
      ¬ (t.schema = "information_schema" ∨ t.schema = "pg_catalog" ∨
         t.schema = "pg_toast") ∧ t.tableType = "BASE TABLE"))).map
    (fun t => (t.schema, t.name))

/-- `ORDER BY ordinal_position`. -/
def colLE (a b : CatColumn) : Prop := a.position ≤ b.position

instance : DecidableRel colLE := fun x y => Nat.decLe x.position y.position

instance : IsTotal CatColumn colLE := ⟨fun x y => Nat.le_total x.position y.position⟩

instance : IsTrans CatColumn colLE := ⟨fun _ _ _ => Nat.le_trans⟩

/-- The per-table column query (source lines 47-52) followed by the row
massaging of lines 55-58. -/
def columnsQuery (cat : Catalog) (s t : String) : List ColumnInfo :=
  (List.insertionSort colLE
    (cat.columns.filter (fun c => c.schema = s ∧ c.table = t))).map
    (fun c => ⟨c.name, c.dataType, c.isNullable, c.position⟩)

/-- The primary-key query (source lines 61-73): `table_constraints` joined
to `constraint_column_usage` on constraint name, then to
`information_schema.columns` on schema, table and column name. -/
def pkQuery (cat : Catalog) (s t : String) : List String :=
  (cat.tableConstraints.filter (fun tc =>
      tc.constraintType = "PRIMARY KEY" ∧ tc.schema = s ∧ tc.table = t)).flatMap
    (fun tc =>
      (cat.constraintColumnUsage.filter (fun ccu =>
          tc.constraintName = ccu.constraintName)).flatMap
        (fun ccu =>
          (cat.columns.filter (fun c =>
              c.schema = tc.schema ∧ c.table = tc.table ∧
              c.name = ccu.column)).map (fun c => c.name)))

/-- The foreign-key constraints of `(s, t)` (the `WHERE` clause of the FK
query, source lines 91-93). -/
def fkConstraints (cat : Catalog) (s t : String) : List TableConstraint :=
  cat.tableConstraints.filter (fun tc =>
    tc.constraintType = "FOREIGN KEY" ∧ tc.schema = s ∧ tc.table = t)

/-- `key_column_usage` rows joined to an FK constraint (source lines 86-88:
on constraint name and table schema). -/
def kcuOf (cat : Catalog) (tc : TableConstraint) : List KeyColumnUsage :=
  cat.keyColumnUsage.filter (fun k =>
    tc.constraintName = k.constraintName ∧ tc.schema = k.schema)

/-- `constraint_column_usage` rows joined to an FK constraint (source
lines 89-90: on constraint name alone). -/
def ccuOf (cat : Catalog) (tc : TableConstraint) : List ConstraintColumnUsage :=
  cat.constraintColumnUsage.filter (fun c =>
    tc.constraintName = c.constraintName)

/-- The foreign-key query (source lines 79-94): each row is
`(column_name, foreign_schema, foreign_table, foreign_column)`.  Because
`constraint_column_usage` is joined on constraint name only, every
`key_column_usage` row of a constraint pairs with every
`constraint_column_usage` row of that constraint. -/
def fkQuery (cat : Catalog) (s t : String) :
    List (String × String × String × String) :=
  (fkConstraints cat s t).flatMap (fun tc =>
    (kcuOf cat tc).flatMap (fun k =>
      (ccuOf cat tc).map (fun c => (k.column, c.schema, c.table, c.column))))

/-- The index query (source lines 106-110) with the massaging of
lines 113-115. -/
def idxQuery (cat : Catalog) (s t : String) : List IndexInfo :=
  (cat.indexes.filter (fun i => i.schemaname = s ∧ i.tablename = t)).map
    (fun i => ⟨i.indexname, i.indexdef⟩)

/-! ### Extraction with failure injection and connection tracking -/

/-- Error kinds of the extraction call: `psycopg2.connect` failures
(unreachable host, rejected credentials) and per-query failures. -/
inductive ExtractErr where
  | connectionError : ExtractErr
  | queryError : ExtractErr
deriving DecidableEq, Repr

/-- One of the five catalog queries issued by the extraction function. -/
inductive Query where
  | listTables : Query
  | columnsQ (s t : String) : Query
  | pkQ (s t : String) : Query
  | fkQ (s t : String) : Query
  | idxQ (s t : String) : Query
deriving DecidableEq, Repr

/-- The environment an extraction call runs against: the database catalog,
whether `psycopg2.connect` raises, and which `cursor.execute` calls raise. -/
structure DbEnv where
  cat : Catalog
  connectFails : Bool
  qFails : Query → Bool

/-- Connection lifecycle of one extraction call: how many times
`psycopg2.connect` and `conn.close()` ran. -/
structure ConnTrace where
  opens : Nat
  closes : Nat
deriving DecidableEq, Repr

/-- Execute one catalog query: raises (`Except.error`) when the failure
oracle says so, otherwise returns the query result over the catalog. -/
def runQ {α : Type} (db : DbEnv) (q : Query) (res : α) : Except ExtractErr α :=
  if db.qFails q then Except.error ExtractErr.queryError else Except.ok res

/-- The body of the `for schema, table in tables` loop (source lines
42-115): append the qualified name, then run the column, primary-key,
foreign-key and index queries in order, extending `schema_info`.  Any
raising query aborts the body (and with it the whole call). -/
def tableStep (db : DbEnv) (acc : SchemaModel) (st : String × String) :
    Except ExtractErr SchemaModel :=
  let s := st.1
  let t := st.2
  let tf := s ++ "." ++ t
  let acc1 : SchemaModel := { acc with tables := acc.tables ++ [tf] }
  match runQ db (Query.columnsQ s t) (columnsQuery db.cat s t) with
  | Except.error e => Except.error e
  | Except.ok cols =>
    let acc2 : SchemaModel := { acc1 with columns := dinsert tf cols acc1.columns }
    match runQ db (Query.pkQ s t) (pkQuery db.cat s t) with
    | Except.error e => Except.error e
    | Except.ok pks =>
      let acc3 : SchemaModel :=
        { acc2 with primary_keys := dinsert tf pks acc2.primary_keys }
      match runQ db (Query.fkQ s t) (fkQuery db.cat s t) with
      | Except.error e => Except.error e
      | Except.ok fks =>
        let acc4 : SchemaModel :=
          { acc3 with foreign_keys := acc3.foreign_keys ++
              (fks.map (fun r => ⟨tf, r.1, r.2.1 ++ "." ++ r.2.2.1, r.2.2.2⟩)) }
        match runQ db (Query.idxQ s t) (idxQuery db.cat s t) with
        | Except.error e => Except.error e
        | Except.ok idxs =>
            Except.ok { acc4 with indexes := dinsert tf idxs acc4.indexes }

/-- The `for` loop over the listed tables. -/
def extractLoop (db : DbEnv) : List (String × String) → SchemaModel →
    Except ExtractErr SchemaModel
  | [], acc => Except.ok acc
  | st :: rest, acc =>
      match tableStep db acc st with
      | Except.error e => Except.error e
      | Except.ok acc' => extractLoop db rest acc'

/-- `get_postgres_schema_with_relations` (source lines 8-118), with its
connection lifecycle made explicit.  `psycopg2.connect` either raises
(nothing opened) or opens the one connection; `conn.close()` (line 117)
runs only after the loop completes, so a raising catalog query leaves the
connection open. -/
def get_postgres_schema_with_relations (db : DbEnv) :
    Except ExtractErr SchemaModel × ConnTrace :=
  if db.connectFails then (Except.error ExtractErr.connectionError, ⟨0, 0⟩)
  else
    match (runQ db Query.listTables (listTablesQuery db.cat)).bind
        (fun ts => extractLoop db ts emptySchema) with
    | Except.ok m => (Except.ok m, ⟨1, 1⟩)
    | Except.error e => (Except.error e, ⟨1, 0⟩)

/-- The presentation shell's load action (source lines 254-264): the
session's `schema_info` is replaced on success and kept unchanged when the
extraction call raises (the `except` branch only displays the error). -/
def shellUpdate (db : DbEnv) (prev : Option SchemaModel) : Option SchemaModel :=
  match (get_postgres_schema_with_relations db).1 with
  | Except.ok m => some m
  | Except.error _ => prev

/-! ### The Graphviz renderer (`generate_erd_graphviz`, lines 120-155) -/

/-- A `dot.node(...)` call recorded in the `Digraph` body. -/
structure DotNode where
  name : String
  label : String
  shape : String
deriving DecidableEq, Repr

/-- A `dot.edge(...)` call recorded in the `Digraph` body. -/
structure DotEdge where
  tail : String
  head : String
  label : String
  color : String
  fontsize : String
deriving DecidableEq, Repr

/-- The `graphviz.Digraph` object: every `node`/`edge` call appends one
statement to the body; nothing is deduplicated. -/
structure Digraph where
  comment : String
  rankdir : String
  size : String
  nodes : List DotNode
  edges : List DotEdge
deriving DecidableEq, Repr

/-- `table in schema_info['primary_keys'] and col['name'] in
schema_info['primary_keys'][table]` (source line 136). -/
def isPkCol (pks : List (String × List String)) (tf name : String) : Bool :=
  match dlookup tf pks with
  | some l => l.contains name
  | none => false

/-- The HTML-like node label built at source lines 131-145. -/
def tableLabel (pks : List (String × List String)) (tf : String)
    (cols : List ColumnInfo) : String :=
  (cols.foldl
    (fun acc col =>
      let pk := isPkCol pks tf col.name
      let colName := if pk then "🔑 " ++ col.name else col.name
      let bgcolor := if pk then "lightgreen" else "white"
      acc ++ "<TR><TD BGCOLOR='" ++ bgcolor ++ "'>" ++ colName ++
        "</TD><TD>" ++ col.type ++ "</TD></TR>")
    ("<<TABLE BORDER='1' CELLBORDER='1' CELLSPACING='0'>" ++
     "<TR><TD COLSPAN='2' BGCOLOR='lightblue'><B>" ++ tf ++
     "</B></TD></TR>")) ++ "</TABLE>>"

/-- The node loop of source lines 129-147.  `schema_info['columns'][table]`
is a plain indexing, so a table without a columns entry raises `KeyError`
(`none`). -/
def gvNodes (pks : List (String × List String))
    (columns : List (String × List ColumnInfo)) :
    List String → Option (List DotNode)
  | [] => some []
  | tf :: rest =>
      match dlookup tf columns with
      | none => none
      | some cols =>
          (gvNodes pks columns rest).map
            (fun ns => ⟨tf, tableLabel pks tf cols, "plaintext"⟩ :: ns)

/-- `generate_erd_graphviz` (source lines 120-155): one node per table with
an HTML-like label, then one edge per foreign key labeled
`from_column → to_column`; `none` models a raised `KeyError`. -/
def generate_erd_graphviz (m : SchemaModel) : Option Digraph :=
  match gvNodes m.primary_keys m.columns m.tables with
  | none => none
  | some ns =>
      some ⟨"Database Schema", "LR", "12,8", ns,
        m.foreign_keys.map (fun fk =>
          ⟨fk.from_table, fk.to_table,
           fk.from_column ++ " → " ++ fk.to_column, "blue", "10"⟩)⟩

/-! ### The NetworkX renderer (`generate_erd_networkx`, lines 157-230) -/

/-- A node of an `nx.DiGraph` with its attribute dictionary (only the
`size` attribute is ever set). -/
structure NXNode where
  name : String
  size : Option Nat
deriving DecidableEq, Repr

/-- An `nx.DiGraph`: node names form a set (re-adding updates attributes
in place), and parallel edges between the same ordered pair collapse. -/
structure NXGraph where
  nodes : List NXNode
  edges : List (String × String)
deriving DecidableEq, Repr

/-- `G.add_node(name, size=v)`: update the attribute if the node exists,
else append it. -/
def nxAddNodeSize (g : NXGraph) (name : String) (v : Nat) : NXGraph :=
  if g.nodes.any (fun n => n.name = name) then
    { g with nodes :=
        g.nodes.map (fun n => if n.name = name then ⟨n.name, some v⟩ else n) }
  else { g with nodes := g.nodes ++ [⟨name, some v⟩] }

/-- The implicit node creation performed by `G.add_edge` for an endpoint
that is not yet a node: added with an empty attribute dictionary. -/
def nxEnsureNode (g : NXGraph) (name : String) : NXGraph :=
  if g.nodes.any (fun n => n.name = name) then g
  else { g with nodes := g.nodes ++ [⟨name, none⟩] }

/-- `G.add_edge(a, b)`: both endpoints are ensured as nodes, and the edge
is stored at most once per ordered pair. -/
def nxAddEdge (g : NXGraph) (a b : String) : NXGraph :=
  let g1 := nxEnsureNode g a
  let g2 := nxEnsureNode g1 b
  if g2.edges.contains (a, b) then g2
  else { g2 with edges := g2.edges ++ [(a, b)] }

/-- The node loop of source lines 165-168: each table is added with
`size=len(schema_info['columns'][table]) * 100`; the plain indexing raises
`KeyError` (`none`) for a table without a columns entry. -/
def nxAddTables (columns : List (String × List ColumnInfo)) :
    List String → NXGraph → Option NXGraph
  | [], g => some g
  | tf :: rest, g =>
      match dlookup tf columns with
      | none => none
      | some cols => nxAddTables columns rest (nxAddNodeSize g tf (cols.length * 100))

/-- The edge loop of source lines 171-176: add one edge per foreign key and
record its label in the `edge_labels` dict keyed by the table pair (a later
foreign key between the same pair overwrites the label). -/
def nxAddFks : List FKEdge → NXGraph × List ((String × String) × String) →
    NXGraph × List ((String × String) × String)
  | [], st => st
  | fk :: rest, (g, labels) =>
      nxAddFks rest
        (nxAddEdge g fk.from_table fk.to_table,
         dinsert (fk.from_table, fk.to_table)
           (fk.from_column ++ " → " ++ fk.to_column) labels)

/-- The figure assembled by `generate_erd_networkx`: the graph, the layout
positions (of abstract type `P`, computed by the layout backend), the node
sizes passed to `draw_networkx_nodes`, the edge labels and the title. -/
structure NXFig (P : Type) where
  graph : NXGraph
  pos : P
  node_sizes : List Nat
  edge_labels : List ((String × String) × String)
  title : String

/-- `generate_erd_networkx` (source lines 157-230).  The spring layout is
abstracted as a function `L` of the graph, the `k=3` and `iterations=50`
parameters, the optional seed, and the ambient random state (threaded
through); the source calls it with the fixed seed `42` (line 183).  Node
sizes are read back as `G.nodes[n].get('size', 2000)` (line 186). -/
def generate_erd_networkx {P : Type}
    (L : NXGraph → Nat → Nat → Option Nat → Nat → P × Nat)
    (m : SchemaModel) (rng : Nat) : Option (NXFig P × Nat) :=
  match nxAddTables m.columns m.tables ⟨[], []⟩ with
  | none => none
  | some g0 =>
      let gl := nxAddFks m.foreign_keys (g0, [])
      let pr := L gl.1 3 50 (some 42) rng
      let sizes := gl.1.nodes.map (fun n => n.size.getD 2000)
      some (⟨gl.1, pr.1, sizes, gl.2, "Граф связей базы данных"⟩, pr.2)

/-! ### Sample inputs (Scenario A of the specification, and failure cases) -/

/-- A two-table catalog: `orders(id PK, customer_id FK → customers.id)` and
`customers(id PK, name)`. -/
def sampleCatalog : Catalog where
  tables := [⟨"public", "orders", "BASE TABLE"⟩, ⟨"public", "customers", "BASE TABLE"⟩]
  columns :=
    [⟨"public", "orders", "id", "integer", "NO", 1⟩,
     ⟨"public", "orders", "customer_id", "integer", "YES", 2⟩,
     ⟨"public", "customers", "id", "integer", "NO", 1⟩,
     ⟨"public", "customers", "name", "text", "YES", 2⟩]
  tableConstraints :=
    [⟨"orders_pkey", "PRIMARY KEY", "public", "orders"⟩,
     ⟨"customers_pkey", "PRIMARY KEY", "public", "customers"⟩,
     ⟨"orders_customer_id_fkey", "FOREIGN KEY", "public", "orders"⟩]
  keyColumnUsage := [⟨"orders_customer_id_fkey", "public", "orders", "customer_id"⟩]
  constraintColumnUsage :=
    [⟨"orders_pkey", "public", "orders", "id"⟩,
     ⟨"customers_pkey", "public", "customers", "id"⟩,
     ⟨"orders_customer_id_fkey", "public", "customers", "id"⟩]
  indexes := []

/-- No `cursor.execute` call raises. -/
def noFails : Query → Bool := fun _ => false

/-- A reachable database holding `sampleCatalog`. -/
def sampleDb : DbEnv := ⟨sampleCatalog, false, noFails⟩

/-- `psycopg2.connect` raises (unreachable host / rejected credentials). -/
def connFailDb : DbEnv := ⟨sampleCatalog, true, noFails⟩

/-- The connection succeeds but every per-table column query raises. -/
def failColumnsDb : DbEnv :=
  ⟨sampleCatalog, false, fun q =>
    match q with
    | Query.columnsQ _ _ => true
    | _ => false⟩

/-- The model extracted from `sampleDb`. -/
def sampleModel : SchemaModel :=
  ((get_postgres_schema_with_relations sampleDb).1.toOption).getD emptySchema

/-! ### Dictionary and query-plumbing lemmas -/

theorem dlookup_dinsert_self {κ α : Type} [DecidableEq κ] (k : κ) (v : α)
    (d : List (κ × α)) : dlookup k (dinsert k v d) = some v := by
  induction d with
  | nil => simp [dinsert, dlookup]
  | cons hd tl ih =>
      obtain ⟨k', v'⟩ := hd
      by_cases h : k' = k
      · simp [dinsert, dlookup, h]
      · simp [dinsert, dlookup, h, ih]

theorem dlookup_dinsert_ne {κ α : Type} [DecidableEq κ] {k k0 : κ} (v : α)
    (d : List (κ × α)) (h : k ≠ k0) :
    dlookup k (dinsert k0 v d) = dlookup k d := by
  have h0 : ¬ (k0 = k) := fun e => h e.symm
  induction d with
  | nil => simp [dinsert, dlookup, h0]
  | cons hd tl ih =>
      obtain ⟨k', v'⟩ := hd
      by_cases h' : k' = k0
      · subst h'
        simp [dinsert, dlookup, h0]
      · simp [dinsert, dlookup, h', ih]

theorem runQ_ok {α : Type} {db : DbEnv} {q : Query} {r v : α}
    (h : runQ db q r = Except.ok v) : v = r := by
  unfold runQ at h
  split at h
  · exact Except.noConfusion h
  · injection h with h'
    exact h'.symm

/-- What a successful loop body does to the accumulator, field by field. -/
theorem tableStep_ok {db : DbEnv} {acc acc' : SchemaModel} {st : String × String}
    (h : tableStep db acc st = Except.ok acc') :
    acc'.tables = acc.tables ++ [st.1 ++ "." ++ st.2] ∧
    acc'.columns =
      dinsert (st.1 ++ "." ++ st.2) (columnsQuery db.cat st.1 st.2) acc.columns ∧
    acc'.primary_keys =
      dinsert (st.1 ++ "." ++ st.2) (pkQuery db.cat st.1 st.2) acc.primary_keys ∧
    acc'.foreign_keys = acc.foreign_keys ++
      ((fkQuery db.cat st.1 st.2).map (fun r =>
        ⟨st.1 ++ "." ++ st.2, r.1, r.2.1 ++ "." ++ r.2.2.1, r.2.2.2⟩)) ∧
    acc'.indexes =
      dinsert (st.1 ++ "." ++ st.2) (idxQuery db.cat st.1 st.2) acc.indexes := by
  unfold tableStep at h
  dsimp only at h
  split at h
  · exact Except.noConfusion h
  next cols hc =>
    split at h
    · exact Except.noConfusion h
    next pks hp =>
      split at h
      · exact Except.noConfusion h
      next fks hf =>
        split at h
        · exact Except.noConfusion h
        next idxs hi =>
          injection h with h'
          subst h'
          rw [runQ_ok hc, runQ_ok hp, runQ_ok hf, runQ_ok hi]
          exact ⟨rfl, rfl, rfl, rfl, rfl⟩

/-- A successful extraction call ran the loop over the listed tables. -/
theorem extract_ok {db : DbEnv} {m : SchemaModel}
    (h : (get_postgres_schema_with_relations db).1 = Except.ok m) :
    extractLoop db (listTablesQuery db.cat) emptySchema = Except.ok m := by
  unfold get_postgres_schema_with_relations at h
  split at h
  · exact Except.noConfusion h
  next hc =>
    split at h
    next m0 hm0 =>
      injection h with h'
      subst h'
      unfold runQ at hm0
      split at hm0
      · exact Except.noConfusion hm0
      · exact hm0
    next e he => exact Except.noConfusion h

/-- Any property of the accumulator preserved by a successful loop body is
preserved by the whole loop. -/
theorem extractLoop_inv {db : DbEnv} (Inv : SchemaModel → Prop)
    (hstep : ∀ acc st acc', Inv acc → tableStep db acc st = Except.ok acc' →
      Inv acc') :
    ∀ ts acc m, Inv acc → extractLoop db ts acc = Except.ok m → Inv m := by
  intro ts
  induction ts with
  | nil =>
      intro acc m h hl
      unfold extractLoop at hl
      injection hl with h'
      exact h' ▸ h
  | cons st rest ih =>
      intro acc m h hl
      unfold extractLoop at hl
      split at hl
      · exact Except.noConfusion hl
      next acc' hstep' => exact ih acc' m (hstep acc st acc' h hstep') hl

/-! ### C1 — connection lifecycle -/

/-- C1 (amended): when `psycopg2.connect` succeeds, exactly one connection
is opened; it is closed before returning exactly when the whole extraction
succeeds, so a raising catalog query leaves the connection open; when
`connect` itself raises, no connection is opened at all. -/
theorem c1_connection_scope (db : DbEnv) :
    (db.connectFails = false →
      (get_postgres_schema_with_relations db).2.opens = 1 ∧
      ((get_postgres_schema_with_relations db).1.isOk = true ↔
        (get_postgres_schema_with_relations db).2.closes = 1)) ∧
    (db.connectFails = true →
      (get_postgres_schema_with_relations db).2 = ⟨0, 0⟩) := by
  unfold get_postgres_schema_with_relations
  constructor
  · intro hc
    rw [hc]
    simp only [Bool.false_eq_true, if_false]
    split
    · exact ⟨rfl, by simp [Except.isOk, Except.toBool]⟩
    · exact ⟨rfl, by simp [Except.isOk, Except.toBool]⟩
  · intro hc
    rw [hc]
    simp

/-- Witness for C1: on a sample database with no failures, the call opens
one connection, succeeds, and closes it. -/
theorem c1_connection_scope_witness :
    (get_postgres_schema_with_relations sampleDb).2.opens = 1 ∧
    ((get_postgres_schema_with_relations sampleDb).1.isOk = true ↔
      (get_postgres_schema_with_relations sampleDb).2.closes = 1) :=
  (c1_connection_scope sampleDb).1 rfl

/-- Counterexample to C1 as stated: with the connection established and the
per-table column query raising, the call raises (`QueryError`) with the
connection opened but never closed — it is not released on this exit
path. -/
theorem c1_counterexample :
    (get_postgres_schema_with_relations failColumnsDb).2.opens = 1 ∧
    (get_postgres_schema_with_relations failColumnsDb).2.closes = 0 ∧
    (get_postgres_schema_with_relations failColumnsDb).1 =
      Except.error ExtractErr.queryError :=
  ⟨rfl, rfl, rfl⟩

/-! ### C2 — failed extraction yields no model and keeps the previous one -/

/-- C2: when extraction fails, the call returns no `SchemaModel` (its
result is the raised error, not even a partial model), and the shell's
previously loaded model is left unchanged. -/
theorem c2_no_partial_model (db : DbEnv) (prev : Option SchemaModel)
    (e : ExtractErr)
    (h : (get_postgres_schema_with_relations db).1 = Except.error e) :
    (∀ m : SchemaModel,
      (get_postgres_schema_with_relations db).1 ≠ Except.ok m) ∧
    shellUpdate db prev = prev := by
  constructor
  · intro m hm
    rw [h] at hm
    exact Except.noConfusion hm
  · unfold shellUpdate
    rw [h]

/-- Witness for C2: an unreachable host fails with `ConnectionError` and
the previously loaded sample model stays available. -/
theorem c2_no_partial_model_witness :
    (∀ m : SchemaModel,
      (get_postgres_schema_with_relations connFailDb).1 ≠ Except.ok m) ∧
    shellUpdate connFailDb (some sampleModel) = some sampleModel :=
  c2_no_partial_model connFailDb (some sampleModel)
    ExtractErr.connectionError rfl

/-! ### C7 — one labeled edge per foreign key in the Graphviz diagram -/

/-- C7: the hierarchical diagram holds exactly one directed edge per
element of `foreign_keys`, in order, from the owning table to the
referenced table, labeled `from_column → to_column`; parallel edges stay
distinct (the edge list is a `map`, never deduplicated). -/
theorem c7_graphviz_edges (m : SchemaModel) (d : Digraph)
    (h : generate_erd_graphviz m = some d) :
    d.edges = m.foreign_keys.map (fun fk =>
      ⟨fk.from_table, fk.to_table,
       fk.from_column ++ " → " ++ fk.to_column, "blue", "10"⟩) := by
  unfold generate_erd_graphviz at h
  split at h
  · exact Option.noConfusion h
  · injection h with h'
    subst h'
    rfl

/-- A model with two parallel foreign keys between the same table pair. -/
def parallelModel : SchemaModel where
  tables := ["public.a", "public.b"]
  columns :=
    [("public.a", [⟨"x", "integer", "NO", 1⟩, ⟨"y", "integer", "NO", 2⟩]),
     ("public.b", [⟨"id", "integer", "NO", 1⟩])]
  primary_keys := [("public.b", ["id"])]
  foreign_keys :=
    [⟨"public.a", "x", "public.b", "id"⟩, ⟨"public.a", "y", "public.b", "id"⟩]
  indexes := []

/-- The diagram rendered from `parallelModel`. -/
def parallelDot : Digraph :=
  (generate_erd_graphviz parallelModel).getD ⟨"", "", "", [], []⟩

/-- Witness for C7: two foreign keys between the same pair render as two
distinct labeled edges. -/
theorem c7_graphviz_edges_witness :
    parallelDot.edges =
      [⟨"public.a", "public.b", "x → id", "blue", "10"⟩,
       ⟨"public.a", "public.b", "y → id", "blue", "10"⟩] :=
  (c7_graphviz_edges parallelModel parallelDot rfl).trans rfl

/-! ### Renderer totality and node-count lemmas -/

/-- The node loop of the Graphviz renderer succeeds and yields one node
per entry of the table list, whenever every listed table has a columns
entry. -/
theorem gvNodes_spec (pks : List (String × List String))
    (columns : List (String × List ColumnInfo)) :
    ∀ ts : List String, (∀ tf ∈ ts, (dlookup tf columns).isSome = true) →
      ∃ ns, gvNodes pks columns ts = some ns ∧ ns.length = ts.length := by
  intro ts
  induction ts with
  | nil => exact fun _ => ⟨[], rfl, rfl⟩
  | cons tf rest ih =>
      intro h
      have htf := h tf (List.mem_cons_self tf rest)
      cases hc : dlookup tf columns with
      | none => rw [hc] at htf; exact Bool.noConfusion htf
      | some cols =>
          obtain ⟨ns, hns, hlen⟩ := ih (fun x hx => h x (List.mem_cons_of_mem _ hx))
          refine ⟨⟨tf, tableLabel pks tf cols, "plaintext"⟩ :: ns, ?_, by simp [hlen]⟩
          unfold gvNodes
          rw [hc, hns]
          rfl

/-- The names of the nodes of an `nx.DiGraph`, in insertion order. -/
def nxNames (g : NXGraph) : List String := g.nodes.map NXNode.name

theorem nxAny_iff (g : NXGraph) (tf : String) :
    (g.nodes.any fun n => n.name = tf) = true ↔ tf ∈ nxNames g := by
  simp [nxNames, List.any_eq_true, List.mem_map]

theorem nxAddNodeSize_edges (g : NXGraph) (tf : String) (v : Nat) :
    (nxAddNodeSize g tf v).edges = g.edges := by
  unfold nxAddNodeSize
  split <;> rfl

theorem nxAddNodeSize_not_mem {g : NXGraph} {tf : String} (v : Nat)
    (h : tf ∉ nxNames g) :
    (nxAddNodeSize g tf v).nodes = g.nodes ++ [⟨tf, some v⟩] := by
  unfold nxAddNodeSize
  split
  · next hany => exact absurd ((nxAny_iff g tf).mp hany) h
  · rfl

/-- Node-addition loop on fresh, duplicate-free table names: it succeeds,
appends exactly those names, and leaves the edge list untouched. -/
theorem nxAddTables_spec (columns : List (String × List ColumnInfo)) :
    ∀ (ts : List String) (g : NXGraph),
      (∀ tf ∈ ts, (dlookup tf columns).isSome = true) → ts.Nodup →
      (∀ tf ∈ ts, tf ∉ nxNames g) →
      ∃ g', nxAddTables columns ts g = some g' ∧
        nxNames g' = nxNames g ++ ts ∧ g'.edges = g.edges := by
  intro ts
  induction ts with
  | nil => exact fun g _ _ _ => ⟨g, rfl, by simp, rfl⟩
  | cons tf rest ih =>
      intro g h hnd hfresh
      have htf := h tf (List.mem_cons_self tf rest)
      cases hc : dlookup tf columns with
      | none => rw [hc] at htf; exact Bool.noConfusion htf
      | some cols =>
          have hnodes := nxAddNodeSize_not_mem (g := g) (cols.length * 100)
            (hfresh tf (List.mem_cons_self tf rest))
          have hnames1 : nxNames (nxAddNodeSize g tf (cols.length * 100)) =
              nxNames g ++ [tf] := by
            unfold nxNames
            rw [hnodes, List.map_append]
            rfl
          obtain ⟨g', hg', hn', he'⟩ := ih (nxAddNodeSize g tf (cols.length * 100))
            (fun x hx => h x (List.mem_cons_of_mem _ hx))
            hnd.of_cons
            (by
              intro x hx
              rw [hnames1]
              intro hmem
              rcases List.mem_append.mp hmem with h1 | h2
              · exact hfresh x (List.mem_cons_of_mem _ hx) h1
              · have : x = tf := by simpa using h2
                exact (List.nodup_cons.mp hnd).1 (this ▸ hx))
          refine ⟨g', ?_, ?_, ?_⟩
          · unfold nxAddTables
            rw [hc]
            exact hg'
          · rw [hn', hnames1, List.append_assoc]
            rfl
          · rw [he', nxAddNodeSize_edges]

/-! ### C5 — rendering a model with no foreign keys -/

/-- C5: on a `SchemaModel` without foreign keys (well-formed: every table
has a columns entry, identifiers unique), both renderers produce an
artifact with exactly one node per table and no edges. -/
theorem c5_zero_fk_render (m : SchemaModel)
    (hfk : m.foreign_keys = [])
    (hwf : ∀ tf ∈ m.tables, (dlookup tf m.columns).isSome = true)
    (hnd : m.tables.Nodup) :
    (∃ d, generate_erd_graphviz m = some d ∧ d.edges = [] ∧
        d.nodes.length = m.tables.length) ∧
    ∀ (P : Type) (L : NXGraph → Nat → Nat → Option Nat → Nat → P × Nat)
      (rng : Nat),
      ∃ (fig : NXFig P) (rng' : Nat),
        generate_erd_networkx L m rng = some (fig, rng') ∧
        fig.graph.edges = [] ∧ fig.graph.nodes.length = m.tables.length := by
  constructor
  · obtain ⟨ns, hns, hlen⟩ := gvNodes_spec m.primary_keys m.columns m.tables hwf
    unfold generate_erd_graphviz
    rw [hns]
    refine ⟨_, rfl, ?_, ?_⟩
    · rw [hfk]
      rfl
    · exact hlen
  · intro P L rng
    obtain ⟨g0, hg0, hnames, hedges⟩ := nxAddTables_spec m.columns m.tables
      ⟨[], []⟩ hwf hnd (fun tf _ => by simp [nxNames])
    unfold generate_erd_networkx
    rw [hg0]
    dsimp only
    refine ⟨_, _, rfl, ?_, ?_⟩
    · rw [hfk]
      exact hedges
    · rw [hfk]
      have hlen := congrArg List.length hnames
      simpa [nxNames] using hlen

/-- Witness for C5: a one-table model with no foreign keys. -/
def loneModel : SchemaModel where
  tables := ["public.solo"]
  columns := [("public.solo", [⟨"id", "integer", "NO", 1⟩])]
  primary_keys := []
  foreign_keys := []
  indexes := []

/-- Witness for C5, applied to `loneModel`. -/
theorem c5_zero_fk_render_witness :
    (∃ d, generate_erd_graphviz loneModel = some d ∧ d.edges = [] ∧
        d.nodes.length = loneModel.tables.length) ∧
    ∀ (P : Type) (L : NXGraph → Nat → Nat → Option Nat → Nat → P × Nat)
      (rng : Nat),
      ∃ (fig : NXFig P) (rng' : Nat),
        generate_erd_networkx L loneModel rng = some (fig, rng') ∧
        fig.graph.edges = [] ∧
        fig.graph.nodes.length = loneModel.tables.length :=
  c5_zero_fk_render loneModel rfl (by decide) (by decide)

/-! ### C6 — fixed-seed layout determinism -/

/-- C6: the force-directed renderer passes the constant seed `42` to the
spring layout, so for any layout backend that is deterministic once a seed
is supplied, two renders of the same model from different ambient random
states compute identical node coordinates. -/
theorem c6_layout_deterministic {P : Type}
    (L : NXGraph → Nat → Nat → Option Nat → Nat → P × Nat)
    (hL : ∀ g k it s r r', (L g k it (some s) r).1 = (L g k it (some s) r').1)
    (m : SchemaModel) (r1 r2 : Nat) :
    (generate_erd_networkx L m r1).map (fun x => x.1.pos) =
      (generate_erd_networkx L m r2).map (fun x => x.1.pos) := by
  unfold generate_erd_networkx
  cases hg : nxAddTables m.columns m.tables ⟨[], []⟩ with
  | none => rfl
  | some g0 =>
      dsimp only [Option.map]
      rw [hL (nxAddFks m.foreign_keys (g0, [])).1 3 50 42 r1 r2]

/-- A layout backend that ignores everything but the random state. -/
def constLayout : NXGraph → Nat → Nat → Option Nat → Nat → Nat × Nat :=
  fun _ _ _ _ r => (0, r)

/-- Witness for C6: two renders of the sample model from distinct random
states yield the same positions. -/
theorem c6_layout_deterministic_witness :
    (generate_erd_networkx constLayout sampleModel 0).map (fun x => x.1.pos) =
      (generate_erd_networkx constLayout sampleModel 7).map (fun x => x.1.pos) :=
  c6_layout_deterministic constLayout (fun _ _ _ _ _ _ => rfl) sampleModel 0 7

/-! ### Node-membership lemmas for the NetworkX graph -/

theorem nxEnsureNode_mem {g : NXGraph} {n : NXNode} (x : String)
    (h : n ∈ g.nodes) : n ∈ (nxEnsureNode g x).nodes := by
  unfold nxEnsureNode
  split
  · exact h
  · exact List.mem_append_left _ h

theorem nxEnsureNode_name (g : NXGraph) (x : String) :
    ∃ n ∈ (nxEnsureNode g x).nodes, n.name = x := by
  unfold nxEnsureNode
  split
  · next h =>
      obtain ⟨n, hn, he⟩ := List.any_eq_true.mp h
      exact ⟨n, hn, of_decide_eq_true he⟩
  · exact ⟨⟨x, none⟩, List.mem_append_right _ (List.mem_singleton_self _), rfl⟩

theorem nxEnsureNode_cases {g : NXGraph} {x : String} {n : NXNode}
    (h : n ∈ (nxEnsureNode g x).nodes) : n ∈ g.nodes ∨ n = ⟨x, none⟩ := by
  unfold nxEnsureNode at h
  split at h
  · exact Or.inl h
  · rcases List.mem_append.mp h with h1 | h2
    · exact Or.inl h1
    · exact Or.inr (by simpa using h2)

theorem nxAddEdge_nodes (g : NXGraph) (a b : String) :
    (nxAddEdge g a b).nodes = (nxEnsureNode (nxEnsureNode g a) b).nodes := by
  unfold nxAddEdge
  dsimp only
  split <;> rfl

theorem nxAddEdge_mem {g : NXGraph} {n : NXNode} (a b : String)
    (h : n ∈ g.nodes) : n ∈ (nxAddEdge g a b).nodes := by
  rw [nxAddEdge_nodes]
  exact nxEnsureNode_mem _ (nxEnsureNode_mem _ h)

theorem nxAddEdge_cases {g : NXGraph} {a b : String} {n : NXNode}
    (h : n ∈ (nxAddEdge g a b).nodes) : n ∈ g.nodes ∨ n.size = none := by
  rw [nxAddEdge_nodes] at h
  rcases nxEnsureNode_cases h with h1 | h2
  · rcases nxEnsureNode_cases h1 with h3 | h4
    · exact Or.inl h3
    · exact Or.inr (by rw [h4])
  · exact Or.inr (by rw [h2])

theorem nxAddFks_mem :
    ∀ (fks : List FKEdge) (g : NXGraph)
      (labels : List ((String × String) × String)) {n : NXNode},
      n ∈ g.nodes → n ∈ (nxAddFks fks (g, labels)).1.nodes := by
  intro fks
  induction fks with
  | nil => exact fun g labels _ h => h
  | cons fk rest ih =>
      intro g labels n h
      exact ih _ _ (nxAddEdge_mem _ _ h)

theorem nxAddFks_cases :
    ∀ (fks : List FKEdge) (g : NXGraph)
      (labels : List ((String × String) × String)) {n : NXNode},
      n ∈ (nxAddFks fks (g, labels)).1.nodes → n ∈ g.nodes ∨ n.size = none := by
  intro fks
  induction fks with
  | nil => exact fun g labels _ h => Or.inl h
  | cons fk rest ih =>
      intro g labels n h
      rcases ih _ _ h with h1 | h2
      · exact nxAddEdge_cases h1
      · exact Or.inr h2

theorem nxAddFks_endpoints :
    ∀ (fks : List FKEdge) (g : NXGraph)
      (labels : List ((String × String) × String)) (fk : FKEdge),
      fk ∈ fks →
      (∃ n ∈ (nxAddFks fks (g, labels)).1.nodes, n.name = fk.from_table) ∧
      (∃ n ∈ (nxAddFks fks (g, labels)).1.nodes, n.name = fk.to_table) := by
  intro fks
  induction fks with
  | nil => intro g labels fk h; exact absurd h (List.not_mem_nil fk)
  | cons fk0 rest ih =>
      intro g labels fk h
      rcases List.mem_cons.mp h with h1 | h2
      · subst h1
        constructor
        · obtain ⟨n, hn, he⟩ := nxEnsureNode_name g fk.from_table
          have hn' : n ∈ (nxAddEdge g fk.from_table fk.to_table).nodes := by
            rw [nxAddEdge_nodes]
            exact nxEnsureNode_mem _ hn
          exact ⟨n, nxAddFks_mem rest _ _ hn', he⟩
        · obtain ⟨n, hn, he⟩ :=
            nxEnsureNode_name (nxEnsureNode g fk.from_table) fk.to_table
          have hn' : n ∈ (nxAddEdge g fk.from_table fk.to_table).nodes := by
            rw [nxAddEdge_nodes]
            exact hn
          exact ⟨n, nxAddFks_mem rest _ _ hn', he⟩
      · exact ih _ _ fk h2

theorem nxAddNodeSize_mem_name (g : NXGraph) (tf : String) (v : Nat) :
    ∃ n ∈ (nxAddNodeSize g tf v).nodes, n.name = tf ∧ n.size = some v := by
  unfold nxAddNodeSize
  split
  · next h =>
      obtain ⟨n, hn, he⟩ := List.any_eq_true.mp h
      have he' := of_decide_eq_true he
      refine ⟨⟨n.name, some v⟩, ?_, he', rfl⟩
      have hmap :
          (if n.name = tf then (⟨n.name, some v⟩ : NXNode) else n) =
            ⟨n.name, some v⟩ := if_pos he'
      exact hmap ▸ List.mem_map_of_mem _ hn
  · exact ⟨⟨tf, some v⟩, List.mem_append_right _ (List.mem_singleton_self _),
      rfl, rfl⟩

theorem nxAddNodeSize_mem_of_ne {g : NXGraph} {tf : String} {n : NXNode}
    (v : Nat) (h : n ∈ g.nodes) (hne : n.name ≠ tf) :
    n ∈ (nxAddNodeSize g tf v).nodes := by
  unfold nxAddNodeSize
  split
  · have hmap : (if n.name = tf then (⟨n.name, some v⟩ : NXNode) else n) = n :=
      if_neg hne
    exact hmap ▸ List.mem_map_of_mem _ h
  · exact List.mem_append_left _ h

theorem nxAddNodeSize_cases {g : NXGraph} {tf : String} {v : Nat} {n : NXNode}
    (h : n ∈ (nxAddNodeSize g tf v).nodes) : n ∈ g.nodes ∨ n.name = tf := by
  unfold nxAddNodeSize at h
  split at h
  · obtain ⟨n0, hn0, he⟩ := List.mem_map.mp h
    by_cases hx : n0.name = tf
    · right
      rw [← he, if_pos hx]
      exact hx
    · left
      rw [← he, if_neg hx]
      exact hn0
  · rcases List.mem_append.mp h with h1 | h2
    · exact Or.inl h1
    · right
      rw [List.mem_singleton.mp h2]

theorem nxAddTables_total (columns : List (String × List ColumnInfo)) :
    ∀ (ts : List String) (g : NXGraph),
      (∀ tf ∈ ts, (dlookup tf columns).isSome = true) →
      ∃ g', nxAddTables columns ts g = some g' := by
  intro ts
  induction ts with
  | nil => exact fun g _ => ⟨g, rfl⟩
  | cons tf rest ih =>
      intro g h
      have htf := h tf (List.mem_cons_self tf rest)
      cases hc : dlookup tf columns with
      | none => rw [hc] at htf; exact Bool.noConfusion htf
      | some cols =>
          obtain ⟨g', hg'⟩ := ih (nxAddNodeSize g tf (cols.length * 100))
            (fun x hx => h x (List.mem_cons_of_mem _ hx))
          refine ⟨g', ?_⟩
          unfold nxAddTables
          rw [hc]
          exact hg'

theorem nxAddTables_names_sub (columns : List (String × List ColumnInfo)) :
    ∀ (ts : List String) (g g' : NXGraph),
      nxAddTables columns ts g = some g' →
      ∀ n ∈ g'.nodes, n ∈ g.nodes ∨ n.name ∈ ts := by
  intro ts
  induction ts with
  | nil =>
      intro g g' h n hn
      injection h with h'
      subst h'
      exact Or.inl hn
  | cons tf rest ih =>
      intro g g' h n hn
      unfold nxAddTables at h
      cases hc : dlookup tf columns with
      | none => rw [hc] at h; exact Option.noConfusion h
      | some cols =>
          rw [hc] at h
          rcases ih _ _ h n hn with h1 | h2
          · rcases nxAddNodeSize_cases h1 with h3 | h4
            · exact Or.inl h3
            · exact Or.inr (h4 ▸ List.mem_cons_self tf rest)
          · exact Or.inr (List.mem_cons_of_mem _ h2)

theorem nxAddTables_preserve_size (columns : List (String × List ColumnInfo)) :
    ∀ (ts : List String) (g g' : NXGraph),
      nxAddTables columns ts g = some g' →
      ∀ (tf : String) (cols : List ColumnInfo),
        dlookup tf columns = some cols →
        (∃ n ∈ g.nodes, n.name = tf ∧ n.size = some (cols.length * 100)) →
        ∃ n ∈ g'.nodes, n.name = tf ∧ n.size = some (cols.length * 100) := by
  intro ts
  induction ts with
  | nil =>
      intro g g' h tf cols _ hex
      injection h with h'
      subst h'
      exact hex
  | cons tf0 rest ih =>
      intro g g' h tf cols hl hex
      unfold nxAddTables at h
      cases hc : dlookup tf0 columns with
      | none => rw [hc] at h; exact Option.noConfusion h
      | some cols0 =>
          rw [hc] at h
          apply ih _ _ h tf cols hl
          by_cases he : tf = tf0
          · subst he
            have hcc : cols0 = cols := by
              have := hc.symm.trans hl
              injection this
            subst hcc
            exact nxAddNodeSize_mem_name g tf (cols0.length * 100)
          · obtain ⟨n, hn, hname, hsize⟩ := hex
            refine ⟨n, ?_, hname, hsize⟩
            exact nxAddNodeSize_mem_of_ne _ hn (by rw [hname]; exact he)

theorem nxAddTables_sizes (columns : List (String × List ColumnInfo)) :
    ∀ (ts : List String) (g g' : NXGraph),
      nxAddTables columns ts g = some g' →
      ∀ tf ∈ ts, ∃ cols, dlookup tf columns = some cols ∧
        ∃ n ∈ g'.nodes, n.name = tf ∧ n.size = some (cols.length * 100) := by
  intro ts
  induction ts with
  | nil => intro g g' _ tf htf; exact absurd htf (List.not_mem_nil tf)
  | cons tf0 rest ih =>
      intro g g' h tf htf
      unfold nxAddTables at h
      cases hc : dlookup tf0 columns with
      | none => rw [hc] at h; exact Option.noConfusion h
      | some cols0 =>
          rw [hc] at h
          rcases List.mem_cons.mp htf with h1 | h2
          · subst h1
            refine ⟨cols0, hc, ?_⟩
            exact nxAddTables_preserve_size columns rest _ _ h tf cols0 hc
              (nxAddNodeSize_mem_name g tf (cols0.length * 100))
          · exact ih _ _ h tf h2

/-! ### C8 — node size proportional to column count -/

/-- C8: in the force-directed graph, every table's node carries the size
attribute `len(columns[t]) * 100` (one fixed scale constant for all
tables), and the sizes passed to the drawing call are exactly those
attributes (default 2000 for attribute-less nodes). -/
theorem c8_node_size_proportional {P : Type}
    (L : NXGraph → Nat → Nat → Option Nat → Nat → P × Nat)
    (m : SchemaModel) (rng : Nat) (fig : NXFig P) (rng' : Nat)
    (h : generate_erd_networkx L m rng = some (fig, rng')) :
    (∀ tf ∈ m.tables, ∃ cols, dlookup tf m.columns = some cols ∧
      ∃ n ∈ fig.graph.nodes, n.name = tf ∧ n.size = some (cols.length * 100)) ∧
    fig.node_sizes = fig.graph.nodes.map (fun n => n.size.getD 2000) := by
  unfold generate_erd_networkx at h
  cases hg : nxAddTables m.columns m.tables ⟨[], []⟩ with
  | none => rw [hg] at h; exact Option.noConfusion h
  | some g0 =>
      rw [hg] at h
      dsimp only at h
      injection h with h'
      have hfig := congrArg Prod.fst h'
      dsimp only at hfig
      subst hfig
      constructor
      · intro tf htf
        obtain ⟨cols, hl, n, hn, hname, hsize⟩ :=
          nxAddTables_sizes m.columns m.tables ⟨[], []⟩ g0 hg tf htf
        exact ⟨cols, hl, n, nxAddFks_mem m.foreign_keys g0 [] hn, hname, hsize⟩
      · rfl

/-- The figure and final random state rendered from the sample model. -/
def sampleFigR : NXFig Nat × Nat :=
  (generate_erd_networkx constLayout sampleModel 0).getD
    (⟨⟨[], []⟩, 0, [], [], ""⟩, 0)

/-- Witness for C8: `public.customers` has two columns, so its node's size
attribute is `200`. -/
theorem c8_node_size_proportional_witness :
    ∃ cols, dlookup "public.customers" sampleModel.columns = some cols ∧
      ∃ n ∈ sampleFigR.1.graph.nodes, n.name = "public.customers" ∧
        n.size = some (cols.length * 100) :=
  (c8_node_size_proportional constLayout sampleModel 0 sampleFigR.1
    sampleFigR.2 rfl).1 "public.customers" (by decide)

/-! ### C9 — foreign keys to tables outside the model do not crash -/

/-- C9: a foreign key whose endpoint is not among the model's tables still
renders: the hierarchical diagram is produced with that edge present, and
the force-directed renderer completes with the unresolved endpoint as a
node carrying no size attribute (no column detail). -/
theorem c9_unresolved_endpoint {P : Type}
    (L : NXGraph → Nat → Nat → Option Nat → Nat → P × Nat)
    (m : SchemaModel) (rng : Nat) (fk : FKEdge) (x : String)
    (hwf : ∀ tf ∈ m.tables, (dlookup tf m.columns).isSome = true)
    (hfk : fk ∈ m.foreign_keys)
    (hx : x = fk.from_table ∨ x = fk.to_table)
    (hnot : x ∉ m.tables) :
    (∃ d, generate_erd_graphviz m = some d ∧
      (⟨fk.from_table, fk.to_table, fk.from_column ++ " → " ++ fk.to_column,
        "blue", "10"⟩ : DotEdge) ∈ d.edges) ∧
    ∃ (fig : NXFig P) (rng' : Nat),
      generate_erd_networkx L m rng = some (fig, rng') ∧
      ∃ n ∈ fig.graph.nodes, n.name = x ∧ n.size = none := by
  constructor
  · obtain ⟨ns, hns, _⟩ := gvNodes_spec m.primary_keys m.columns m.tables hwf
    unfold generate_erd_graphviz
    rw [hns]
    exact ⟨_, rfl, List.mem_map_of_mem _ hfk⟩
  · obtain ⟨g0, hg0⟩ := nxAddTables_total m.columns m.tables ⟨[], []⟩ hwf
    unfold generate_erd_networkx
    rw [hg0]
    dsimp only
    refine ⟨_, _, rfl, ?_⟩
    have hend := nxAddFks_endpoints m.foreign_keys g0 [] fk hfk
    have hxnode :
        ∃ n ∈ (nxAddFks m.foreign_keys (g0, [])).1.nodes, n.name = x := by
      rcases hx with h | h
      · exact h ▸ hend.1
      · exact h ▸ hend.2
    obtain ⟨n, hn, hname⟩ := hxnode
    refine ⟨n, hn, hname, ?_⟩
    rcases nxAddFks_cases m.foreign_keys g0 [] hn with h0 | hnone
    · exfalso
      rcases nxAddTables_names_sub m.columns m.tables ⟨[], []⟩ g0 hg0 n h0 with
        habs | hmem
      · simp at habs
      · exact hnot (hname ▸ hmem)
    · exact hnone

/-- A model whose only foreign key points at a table outside `tables`
(e.g. a cross-schema reference). -/
def danglingModel : SchemaModel where
  tables := ["public.a"]
  columns := [("public.a", [⟨"x", "integer", "NO", 1⟩])]
  primary_keys := []
  foreign_keys := [⟨"public.a", "x", "other.b", "id"⟩]
  indexes := []

/-- Witness for C9: the dangling reference `other.b` renders as a node
without column detail, and both renderers complete. -/
theorem c9_unresolved_endpoint_witness :
    (∃ d, generate_erd_graphviz danglingModel = some d ∧
      (⟨"public.a", "other.b", "x → id", "blue", "10"⟩ : DotEdge) ∈ d.edges) ∧
    ∃ (fig : NXFig Nat) (rng' : Nat),
      generate_erd_networkx constLayout danglingModel 0 = some (fig, rng') ∧
      ∃ n ∈ fig.graph.nodes, n.name = "other.b" ∧ n.size = none :=
  c9_unresolved_endpoint constLayout danglingModel 0
    ⟨"public.a", "x", "other.b", "id"⟩ "other.b"
    (by decide) (by decide) (Or.inr rfl) (by decide)

/-! ### C3 — columns strictly ascending by ordinal position -/

/-- The `information_schema` guarantee that ordinal positions are unique
within each table's column set. -/
def catPosOk (cat : Catalog) : Prop :=
  cat.columns.Pairwise (fun a b =>
    a.schema = b.schema → a.table = b.table → a.position ≠ b.position)

/-- The column query returns rows strictly ascending by position: the
`ORDER BY` sort gives `≤`, and the catalog's per-table uniqueness of
ordinal positions upgrades it to `<`. -/
theorem columnsQuery_strict (cat : Catalog) (s t : String)
    (hcat : catPosOk cat) :
    (columnsQuery cat s t).Pairwise (fun a b => a.position < b.position) := by
  unfold columnsQuery
  rw [List.pairwise_map]
  have hsorted :
      List.Pairwise colLE (List.insertionSort colLE
        (cat.columns.filter (fun c => c.schema = s ∧ c.table = t))) :=
    List.sorted_insertionSort colLE _
  have hne_filter :
      (cat.columns.filter (fun c => c.schema = s ∧ c.table = t)).Pairwise
        (fun a b => a.position ≠ b.position) := by
    have hfilter :
        (cat.columns.filter (fun c => c.schema = s ∧ c.table = t)).Pairwise
          (fun a b => a.schema = b.schema → a.table = b.table →
            a.position ≠ b.position) :=
      hcat.sublist (List.filter_sublist _)
    refine hfilter.imp_of_mem ?_
    intro a b ha hb hr
    obtain ⟨has, hat⟩ := of_decide_eq_true (List.mem_filter.mp ha).2
    obtain ⟨hbs, hbt⟩ := of_decide_eq_true (List.mem_filter.mp hb).2
    exact hr (has.trans hbs.symm) (hat.trans hbt.symm)
  have hne :
      (List.insertionSort colLE
        (cat.columns.filter (fun c => c.schema = s ∧ c.table = t))).Pairwise
        (fun a b => a.position ≠ b.position) :=
    ((List.perm_insertionSort colLE _).pairwise_iff
      (fun h => h.symm)).mpr hne_filter
  exact (hsorted.and hne).imp (fun hab => Nat.lt_of_le_of_ne hab.1 hab.2)

/-- C3: in any successfully extracted model over a catalog with unique
per-table ordinal positions, every listed table has a columns entry sorted
strictly ascending by `position`. -/
theorem c3_columns_sorted (db : DbEnv) (m : SchemaModel)
    (hcat : catPosOk db.cat)
    (h : (get_postgres_schema_with_relations db).1 = Except.ok m) :
    ∀ tf ∈ m.tables, ∃ cols, dlookup tf m.columns = some cols ∧
      cols.Pairwise (fun a b => a.position < b.position) := by
  have hloop := extract_ok h
  refine extractLoop_inv
    (fun acc => ∀ tf ∈ acc.tables, ∃ cols,
      dlookup tf acc.columns = some cols ∧
      cols.Pairwise (fun a b => a.position < b.position))
    ?_ (listTablesQuery db.cat) emptySchema m ?_ hloop
  · intro acc st acc' hInv hstep tf htf
    obtain ⟨ht, hc, _, _, _⟩ := tableStep_ok hstep
    rw [ht] at htf
    rw [hc]
    by_cases he : tf = st.1 ++ "." ++ st.2
    · subst he
      exact ⟨_, dlookup_dinsert_self _ _ _,
        columnsQuery_strict db.cat st.1 st.2 hcat⟩
    · rcases List.mem_append.mp htf with h1 | h2
      · obtain ⟨cols, hl, hp⟩ := hInv tf h1
        exact ⟨cols, (dlookup_dinsert_ne _ _ he).trans hl, hp⟩
      · exact absurd (List.mem_singleton.mp h2) he
  · intro tf htf
    exact absurd htf (List.not_mem_nil tf)

/-- Witness for C3: the extracted sample model's `public.customers`
columns are strictly ascending by position. -/
theorem c3_columns_sorted_witness :
    ∃ cols, dlookup "public.customers" sampleModel.columns = some cols ∧
      cols.Pairwise (fun a b => a.position < b.position) :=
  c3_columns_sorted sampleDb sampleModel (by unfold catPosOk; decide) rfl
    "public.customers" (by decide)

/-! ### C4 — primary-key columns are columns of their table -/

/-- Every name returned by the primary-key query is the name of a column
returned by the column query for the same table: the PK query's final join
goes through `information_schema.columns` on the same schema and table. -/
theorem pkQuery_subset (cat : Catalog) (s t : String) :
    ∀ name ∈ pkQuery cat s t, ∃ c ∈ columnsQuery cat s t, c.name = name := by
  intro name hname
  unfold pkQuery at hname
  rw [List.mem_flatMap] at hname
  obtain ⟨tc, htc, hname⟩ := hname
  rw [List.mem_flatMap] at hname
  obtain ⟨ccu, hccu, hname⟩ := hname
  rw [List.mem_map] at hname
  obtain ⟨c, hc, hcname⟩ := hname
  obtain ⟨htc_mem, htc_p⟩ := List.mem_filter.mp htc
  obtain ⟨hc_mem, hc_p⟩ := List.mem_filter.mp hc
  obtain ⟨htype, hs, ht⟩ := of_decide_eq_true htc_p
  obtain ⟨hcs, hct, hcn⟩ := of_decide_eq_true hc_p
  refine ⟨⟨c.name, c.dataType, c.isNullable, c.position⟩, ?_, hcname⟩
  unfold columnsQuery
  refine List.mem_map_of_mem _ ?_
  rw [List.mem_insertionSort, List.mem_filter]
  exact ⟨hc_mem, decide_eq_true ⟨hcs.trans hs, hct.trans ht⟩⟩

/-- C4: in any successfully extracted model, every column name listed in a
table's `primary_keys` entry names a column of that table's `columns`
entry. -/
theorem c4_pk_subset (db : DbEnv) (m : SchemaModel)
    (h : (get_postgres_schema_with_relations db).1 = Except.ok m) :
    ∀ (tf : String) (pks : List String),
      dlookup tf m.primary_keys = some pks →
      ∀ name ∈ pks, ∃ cols, dlookup tf m.columns = some cols ∧
        ∃ c ∈ cols, c.name = name := by
  have hloop := extract_ok h
  have hInv : ∀ tf : String,
      dlookup tf m.primary_keys = none ∨
      ∃ s t, dlookup tf m.primary_keys = some (pkQuery db.cat s t) ∧
        dlookup tf m.columns = some (columnsQuery db.cat s t) := by
    refine extractLoop_inv
      (fun acc => ∀ tf : String,
        dlookup tf acc.primary_keys = none ∨
        ∃ s t, dlookup tf acc.primary_keys = some (pkQuery db.cat s t) ∧
          dlookup tf acc.columns = some (columnsQuery db.cat s t))
      ?_ (listTablesQuery db.cat) emptySchema m ?_ hloop
    · intro acc st acc' hI hstep tf
      obtain ⟨_, hc, hp, _, _⟩ := tableStep_ok hstep
      rw [hc, hp]
      by_cases he : tf = st.1 ++ "." ++ st.2
      · subst he
        exact Or.inr ⟨st.1, st.2, dlookup_dinsert_self _ _ _,
          dlookup_dinsert_self _ _ _⟩
      · rcases hI tf with h0 | ⟨s, t, h1, h2⟩
        · exact Or.inl ((dlookup_dinsert_ne _ _ he).trans h0)
        · exact Or.inr ⟨s, t, (dlookup_dinsert_ne _ _ he).trans h1,
            (dlookup_dinsert_ne _ _ he).trans h2⟩
    · intro tf
      exact Or.inl rfl
  intro tf pks hpk name hname
  rcases hInv tf with h0 | ⟨s, t, hp, hcl⟩
  · rw [h0] at hpk
    exact Option.noConfusion hpk
  · rw [hp] at hpk
    injection hpk with hpks
    subst hpks
    obtain ⟨c, hcmem, hcname⟩ := pkQuery_subset db.cat s t name hname
    exact ⟨_, hcl, c, hcmem, hcname⟩

/-- Witness for C4: the primary-key column `id` of `public.customers` is
one of that table's columns. -/
theorem c4_pk_subset_witness :
    ∃ cols, dlookup "public.customers" sampleModel.columns = some cols ∧
      ∃ c ∈ cols, c.name = "id" :=
  c4_pk_subset sampleDb sampleModel rfl "public.customers" ["id"] rfl
    "id" (by decide)

/-! ### C10 — composite foreign keys expand to the full column pairing -/

theorem length_flatMap_sum {α β : Type} (f : α → List β) :
    ∀ l : List α, (l.flatMap f).length = (l.map (fun a => (f a).length)).sum := by
  intro l
  induction l with
  | nil => rfl
  | cons a tl ih =>
      simp [List.flatMap_cons, List.length_append, ih]

theorem sum_map_const_mul {α : Type} (c : Nat) :
    ∀ l : List α, (l.map (fun _ => c)).sum = l.length * c := by
  intro l
  induction l with
  | nil => simp
  | cons a tl ih => simp [ih, Nat.succ_mul, Nat.add_comm]

/-- Row count of the FK query: for each FK constraint of the table, the
number of emitted rows is the product of its `key_column_usage` and
`constraint_column_usage` row counts — the n × n blow-up for a composite
key, since the two usages are joined on constraint name without aligning
ordinal positions. -/
theorem fkQuery_count (cat : Catalog) (s t : String) :
    (fkQuery cat s t).length =
      ((fkConstraints cat s t).map (fun tc =>
        (kcuOf cat tc).length * (ccuOf cat tc).length)).sum := by
  unfold fkQuery
  rw [length_flatMap_sum]
  have inner : ∀ tc : TableConstraint,
      ((kcuOf cat tc).flatMap (fun k => (ccuOf cat tc).map (fun c =>
        (k.column, c.schema, c.table, c.column)))).length =
      (kcuOf cat tc).length * (ccuOf cat tc).length := by
    intro tc
    rw [length_flatMap_sum]
    have hmap : ((kcuOf cat tc).map (fun k => ((ccuOf cat tc).map (fun c =>
        (k.column, c.schema, c.table, c.column))).length)) =
        (kcuOf cat tc).map (fun _ => (ccuOf cat tc).length) := by
      simp [List.length_map]
    rw [hmap, sum_map_const_mul]
  simp only [inner]

/-- Every pairing of a local column row with a referenced column row of the
same constraint is emitted by the FK query. -/
theorem fkQuery_mem (cat : Catalog) (s t : String) :
    ∀ tc ∈ fkConstraints cat s t, ∀ k ∈ kcuOf cat tc, ∀ c ∈ ccuOf cat tc,
      (k.column, c.schema, c.table, c.column) ∈ fkQuery cat s t := by
  intro tc htc k hk c hc
  unfold fkQuery
  rw [List.mem_flatMap]
  refine ⟨tc, htc, ?_⟩
  rw [List.mem_flatMap]
  exact ⟨k, hk, List.mem_map_of_mem _ hc⟩

/-- A successful loop appends exactly the FK query rows of each processed
table to the accumulated foreign keys. -/
theorem extractLoop_fks (db : DbEnv) :
    ∀ (ts : List (String × String)) (acc m : SchemaModel),
      extractLoop db ts acc = Except.ok m →
      m.foreign_keys = acc.foreign_keys ++
        ts.flatMap (fun st => (fkQuery db.cat st.1 st.2).map (fun r =>
          ⟨st.1 ++ "." ++ st.2, r.1, r.2.1 ++ "." ++ r.2.2.1, r.2.2.2⟩)) := by
  intro ts
  induction ts with
  | nil =>
      intro acc m h
      unfold extractLoop at h
      injection h with h'
      subst h'
      simp
  | cons st rest ih =>
      intro acc m h
      unfold extractLoop at h
      split at h
      · exact Except.noConfusion h
      next acc' hstep =>
        obtain ⟨_, _, _, hfk, _⟩ := tableStep_ok hstep
        rw [ih acc' m h, hfk, List.flatMap_cons, List.append_assoc]

/-- C10: the extracted `foreign_keys` are exactly the FK-query rows of the
listed tables in order; the FK query emits, per constraint, one row for
every pairing of a `key_column_usage` row with a `constraint_column_usage`
row (n × n for a composite key of n columns). -/
theorem c10_composite_fk_cross_product (db : DbEnv) (m : SchemaModel)
    (h : (get_postgres_schema_with_relations db).1 = Except.ok m) :
    m.foreign_keys = (listTablesQuery db.cat).flatMap (fun st =>
      (fkQuery db.cat st.1 st.2).map (fun r =>
        ⟨st.1 ++ "." ++ st.2, r.1, r.2.1 ++ "." ++ r.2.2.1, r.2.2.2⟩)) ∧
    (∀ s t, (fkQuery db.cat s t).length =
      ((fkConstraints db.cat s t).map (fun tc =>
        (kcuOf db.cat tc).length * (ccuOf db.cat tc).length)).sum) ∧
    (∀ s t, ∀ tc ∈ fkConstraints db.cat s t, ∀ k ∈ kcuOf db.cat tc,
      ∀ c ∈ ccuOf db.cat tc,
        (k.column, c.schema, c.table, c.column) ∈ fkQuery db.cat s t) := by
  refine ⟨?_, fun s t => fkQuery_count db.cat s t,
    fun s t => fkQuery_mem db.cat s t⟩
  have hfks := extractLoop_fks db (listTablesQuery db.cat) emptySchema m
    (extract_ok h)
  simpa using hfks

/-- A catalog with one composite (two-column) foreign key from
`public.child(a, b)` to `public.parent(x, y)`. -/
def compositeCatalog : Catalog where
  tables := [⟨"public", "child", "BASE TABLE"⟩, ⟨"public", "parent", "BASE TABLE"⟩]
  columns :=
    [⟨"public", "child", "a", "integer", "NO", 1⟩,
     ⟨"public", "child", "b", "integer", "NO", 2⟩,
     ⟨"public", "parent", "x", "integer", "NO", 1⟩,
     ⟨"public", "parent", "y", "integer", "NO", 2⟩]
  tableConstraints := [⟨"child_ab_fkey", "FOREIGN KEY", "public", "child"⟩]
  keyColumnUsage :=
    [⟨"child_ab_fkey", "public", "child", "a"⟩,
     ⟨"child_ab_fkey", "public", "child", "b"⟩]
  constraintColumnUsage :=
    [⟨"child_ab_fkey", "public", "parent", "x"⟩,
     ⟨"child_ab_fkey", "public", "parent", "y"⟩]
  indexes := []

/-- A reachable database holding `compositeCatalog`, with no failures. -/
def compositeDb : DbEnv := ⟨compositeCatalog, false, noFails⟩

/-- The model extracted from `compositeDb`. -/
def compositeModel : SchemaModel :=
  ((get_postgres_schema_with_relations compositeDb).1.toOption).getD emptySchema

/-- Witness for C10: the two-column composite foreign key yields the full
2 × 2 = 4 pairings, not just the two aligned column pairs. -/
theorem c10_composite_fk_cross_product_witness :
    compositeModel.foreign_keys =
      [⟨"public.child", "a", "public.parent", "x"⟩,
       ⟨"public.child", "a", "public.parent", "y"⟩,
       ⟨"public.child", "b", "public.parent", "x"⟩,
       ⟨"public.child", "b", "public.parent", "y"⟩] :=
  ((c10_composite_fk_cross_product compositeDb compositeModel rfl).1).trans rfl

end DBViz
